import Mathlib

/-!
Shallow embedding of the `SmartMemorySystem` class of `memory_system.py`
(screenmate repository).  Machine floats of the source are modelled as exact
rationals (every constant in the source is a short decimal, so no rounding
behaviour is lost); SQLite tables become Lean lists of records; the
`anthropic` LLM client becomes an explicit oracle parameter returning
`Option String` (`none` models an exception caught in `_generate_summary`,
which returns Python `None`).  CPython leaves the iteration order of `set`
unspecified; where the source materialises a set into a list
(`list(set(...))`) we keep the first occurrence of each element and say so
at the definition site.
-/

namespace ScreenMate

/-! ### Character classes (ASCII, as used by the source's regexes) -/

def isWordChar (c : Char) : Bool := c.isAlphanum || c == '_'

def isUpperAZ (c : Char) : Bool := 'A' ≤ c && c ≤ 'Z'

def isLowerAZ (c : Char) : Bool := 'a' ≤ c && c ≤ 'z'

def isDigit09 (c : Char) : Bool := c.isDigit

/-- Separator class `[\/\-\.]` of the date regex. -/
def isDateSep (c : Char) : Bool := c == '/' || c == '-' || c == '.'

/-- ASCII lowercasing of one character (Python `str.lower` on the ASCII
range; the source only feeds ASCII text to it). -/
def lowerChar (c : Char) : Char :=
  if 'A' ≤ c && c ≤ 'Z' then Char.ofNat (c.toNat + 32) else c

/-- `text.lower()`. -/
def lowerStr (s : String) : String := ⟨s.data.map lowerChar⟩

/-- Python `s[:n]`. -/
def pyTake (n : Nat) (s : String) : String := ⟨s.data.take n⟩

/-- Python `min`/`max` on exact rationals, kept as plain conditionals so
that the kernel can evaluate them. -/
def ratMin (a b : ℚ) : ℚ := if a ≤ b then a else b

def ratMax (a b : ℚ) : ℚ := if a ≤ b then b else a

/-! ### Substring search (Python `in` on strings, SQL `LIKE '%x%'`) -/

def prefixMatch : List Char → List Char → Bool
  | [], _ => true
  | _ :: _, [] => false
  | a :: as, b :: bs => a == b && prefixMatch as bs

def subSearch (needle : List Char) : List Char → Bool
  | [] => needle.isEmpty
  | c :: rest => prefixMatch needle (c :: rest) || subSearch needle rest

/-- `needle in hay` for Python strings. -/
def containsSubstr (hay needle : String) : Bool := subSearch needle.data hay.data

/-- SQLite `hay LIKE '%' || needle || '%'`: `LIKE` folds ASCII case. -/
def likeContains (hay needle : String) : Bool :=
  containsSubstr (lowerStr hay) (lowerStr needle)

/-! ### Whitespace splitting (Python `str.split()` with no argument:
runs of whitespace separate the words, empty pieces are dropped) -/

def splitWsAux : List Char → List Char → List (List Char)
  | [], acc => if acc.isEmpty then [] else [acc.reverse]
  | c :: rest, acc =>
    if c.isWhitespace then
      if acc.isEmpty then splitWsAux rest [] else acc.reverse :: splitWsAux rest []
    else splitWsAux rest (c :: acc)

def pySplit (s : String) : List String := (splitWsAux s.data []).map (fun cs => ⟨cs⟩)

/-- `list(set(xs))`, keeping the first occurrence of each element (CPython's
set order is unspecified; no theorem below depends on the choice). -/
def firstDedup : List String → List String
  | [] => []
  | x :: xs => x :: (firstDedup xs).filter (fun y => y ≠ x)

/-! ### The regex searches of `_calculate_relevance` -/

/-- A word boundary sits after the matched text: next char absent or non-word. -/
def boundaryAfter : List Char → Bool
  | [] => true
  | c :: _ => !isWordChar c

/-- `re.search(r'\b\d+[\/\-\.]\d+[\/\-\.]\d+\b', ...)` tried at one position
(the leading boundary is checked by the scanner).  The greedy `\d+` pieces
are forced to take maximal digit runs: any shorter choice leaves a digit
where a separator or non-word boundary is required. -/
def dateAt (l : List Char) : Bool :=
  let (d1, r1) := l.span isDigit09
  if d1.isEmpty then false else
  match r1 with
  | s1 :: r2 =>
    if isDateSep s1 then
      let (d2, r3) := r2.span isDigit09
      if d2.isEmpty then false else
      match r3 with
      | s2 :: r4 =>
        if isDateSep s2 then
          let (d3, r5) := r4.span isDigit09
          !d3.isEmpty && boundaryAfter r5
        else false
      | [] => false
    else false
  | [] => false

/-- `re.search(r'\b\d{1,2}:\d{2}\b', ...)` tried at one position (the
shortest match `d:dd` has four characters). -/
def timeAt : List Char → Bool
  | d1 :: c2 :: c3 :: c4 :: rest =>
    isDigit09 d1 &&
      ((c2 == ':' && isDigit09 c3 && isDigit09 c4 && boundaryAfter rest) ||
        (isDigit09 c2 && c3 == ':' && isDigit09 c4 &&
          match rest with
          | c5 :: r => isDigit09 c5 && boundaryAfter r
          | [] => false))
  | _ => false

/-- `re.search(r'\$\d+', ...)`: a dollar sign immediately followed by a digit. -/
def dollarSearch : List Char → Bool
  | c :: d :: rest => (c == '$' && isDigit09 d) || dollarSearch (d :: rest)
  | _ => false

/-- `re.search(r'\b[A-Z][a-z]+ [A-Z][a-z]+\b', ...)` tried at one position:
two capitalised words separated by a single space.  Greedy `[a-z]+` is again
forced maximal by the following literal space / word boundary. -/
def properNameAt (l : List Char) : Bool :=
  match l with
  | u1 :: rest =>
    if isUpperAZ u1 then
      let (lo1, r1) := rest.span isLowerAZ
      if lo1.isEmpty then false else
      match r1 with
      | sp :: u2 :: rest2 =>
        if sp == ' ' && isUpperAZ u2 then
          let (lo2, r2) := rest2.span isLowerAZ
          !lo2.isEmpty && boundaryAfter r2
        else false
      | _ => false
    else false
  | [] => false

/-- Scan every position of the text; the matched patterns above all begin
with a word character, so their leading `\b` demands a non-word character
(or the start of the text) just before the attempt position. -/
def scanBoundary (matchAt : List Char → Bool) : Option Char → List Char → Bool
  | _, [] => false
  | prev, c :: rest =>
    ((match prev with | none => true | some p => !isWordChar p) && matchAt (c :: rest))
      || scanBoundary matchAt (some c) rest

/-- One specificity regex of `_calculate_relevance` matches (`for pattern
in specificity_indicators: if re.search(...): rule_score += 0.15; break`). -/
def hasSpecificity (content : String) : Bool :=
  scanBoundary dateAt none content.data ||
  scanBoundary timeAt none content.data ||
  dollarSearch content.data ||
  scanBoundary properNameAt none content.data

/-! ### Word lists of the source -/

/-- `self.stopwords`, set in `__init__`. -/
def defaultStopwords : List String :=
  ["the", "be", "to", "of", "and", "a", "in", "that", "have", "i",
   "it", "for", "not", "on", "with", "he", "as", "you", "do", "at",
   "this", "but", "his", "by", "from", "they", "we", "say", "her", "she",
   "or", "an", "will", "my", "one", "all", "would", "there", "their", "what"]

/-- local `stopwords` of `_simple_topic_extraction`. -/
def simpleStopwords : List String :=
  ["the", "a", "an", "and", "or", "but", "in", "on", "at", "to", "for", "with", "by"]

def fillerPhrases : List String :=
  ["i don't have enough information",
   "i don't know enough",
   "i cannot determine",
   "it's unclear from the information",
   "based on the image provided",
   "without more context"]

def lowValueApps : List String :=
  ["system preferences", "settings", "file explorer", "finder"]

def actionableIndicators : List String :=
  ["should", "could", "might want to", "try", "consider", "important",
   "deadline", "remember", "key", "critical"]

def taskKeywords : List String :=
  ["task", "todo", "deadline", "project", "remember", "important",
   "meeting", "call", "email"]

/-! ### Data model: the SQLite tables, as lists of typed rows -/

/-- One row of the `memories` table. -/
structure MemRow where
  id : Nat
  content : String
  source : Option String
  timestamp : ℚ
  relevance_score : ℚ
  context : Option String
  app_name : Option String
  topics : List String
  is_consolidated : Bool := false
  access_count : Nat := 0
  last_accessed : Option ℚ := none
deriving DecidableEq

/-- One row of the `consolidated_memories` table. -/
structure ConsRow where
  id : Nat
  content : String
  source_ids : List Nat
  timestamp : ℚ
  topics : List String
  access_count : Nat := 0
  last_accessed : Option ℚ := none
deriving DecidableEq

/-- Persistent plus in-process state of one `SmartMemorySystem` instance:
the two tables, the autoincrement counters, the loaded user profile and the
recent-content fingerprint cache. -/
structure Store where
  memories : List MemRow := []
  consolidated : List ConsRow := []
  nextMemId : Nat := 1
  nextConsId : Nat := 1
  userInterests : List String := []
  recentHashes : List String := []
deriving DecidableEq

structure Cfg where
  relevance_threshold : ℚ := 6/10
deriving DecidableEq

def defaultCfg : Cfg := {}

/-- `json.dumps(topics)` for a list of plain (quote-free) topic strings —
this is the text the SQL `topics LIKE '%t%'` filters run against. -/
def jsonDumps (ts : List String) : String :=
  "[" ++ String.intercalate (", ") (ts.map (fun t => "\x22" ++ t ++ "\x22")) ++ "]"

/-! ### `_quick_relevance_check` -/

def quickRelevanceCheck (content : String) (app_name : Option String) : Bool :=
  if content.length < 15 then false
  else if fillerPhrases.any (fun p => containsSubstr (lowerStr content) p) then false
  else if (match app_name with
           | some a => lowValueApps.contains (lowerStr a)
           | none => false) then
    decide (content.length > 50)
  else
    actionableIndicators.any (fun i => containsSubstr (lowerStr content) i)
      || decide (content.length > 30)

/-! ### `_simple_topic_extraction` -/

def simpleTopicExtraction (text : String) : List String :=
  let words := pySplit (lowerStr text)
  let filtered := words.filter (fun w => !simpleStopwords.contains w && w.length > 3)
  (firstDedup filtered).take 5

/-! ### `_calculate_relevance` and its four sub-scores -/

def ruleScore (content : String) : ℚ :=
  let s1 : ℚ :=
    if taskKeywords.any (fun k => containsSubstr (lowerStr content) k) then 2/10 else 0
  let s2 : ℚ := if hasSpecificity content then s1 + 15/100 else s1
  if containsSubstr (lowerStr content) ("you") then s2 + 1/10 else s2

def interestScore (st : Store) (content : String) : ℚ :=
  if st.userInterests.any (fun i => containsSubstr (lowerStr content) (lowerStr i)) then
    3/10
  else 0

/-- `SELECT AVG(access_count) FROM memories WHERE topics LIKE '%t%'`; the
source adds `result[0]` only when it is truthy, and `None` (no matching
row) and `0.0` both contribute nothing, so the value below is the summand. -/
def avgAccessForTopic (st : Store) (t : String) : ℚ :=
  let rows := st.memories.filter (fun m => likeContains (jsonDumps m.topics) t)
  if rows.isEmpty then 0
  else (rows.map (fun m => (m.access_count : ℚ))).sum / rows.length

def historicalScore (st : Store) (content : String) : ℚ :=
  let potentialTopics := simpleTopicExtraction content
  if potentialTopics.isEmpty then 0
  else
    let total := (potentialTopics.map (avgAccessForTopic st)).sum
    let avgEngagement := total / potentialTopics.length
    ratMin (3/10) (avgEngagement * (1/10))

/-- Sub-score 4: application-context relevance.  `if app_name:` is Python
truthiness, so both `None` and the empty string skip the count. -/
def appScore (st : Store) (app_name : Option String) : ℚ :=
  match app_name with
  | none => 0
  | some a =>
    if a = ("") then 0
    else
      let cnt := (st.memories.filter (fun m => m.app_name == some a)).length
      ratMin (2/10) ((cnt : ℚ) * (2/100))

/-- `_calculate_relevance(content, context, app_name)`.  The `context`
argument is accepted and ignored, exactly as in the source. -/
def calcRelevance (st : Store) (content : String) (context : Option String)
    (app_name : Option String) : ℚ :=
  let final := ruleScore content * (4/10) + interestScore st content * (3/10)
      + historicalScore st content * (2/10) + appScore st app_name * (1/10)
  ratMin 1 (ratMax 0 final)

/-! ### `extract_topics_local` -/

/-- `re.sub(r'[^\w\s]', '', text.lower())`: lowercase, then drop every
character that is neither a word character nor whitespace. -/
def normalizeText (s : String) : String :=
  ⟨(s.data.map lowerChar).filter (fun c => isWordChar c || c.isWhitespace)⟩

/-- `collections.Counter` as an association list in first-insertion order
(Python dicts preserve insertion order). -/
def bumpBy (cs : List (String × Nat)) (k : String) (n : Nat) : List (String × Nat) :=
  match cs with
  | [] => [(k, n)]
  | (k0, c0) :: rest => if k0 = k then (k0, c0 + n) :: rest else (k0, c0) :: bumpBy rest k n

def buildCounter (ws : List String) : List (String × Nat) :=
  ws.foldl (fun cs w => bumpBy cs w 1) []

/-- Stable descending insertion sort on counts: ties keep insertion order,
matching `Counter.most_common` / `sorted(..., reverse=True)`. -/
def insertCountDesc (x : String × Nat) : List (String × Nat) → List (String × Nat)
  | [] => [x]
  | y :: ys => if y.2 > x.2 then y :: insertCountDesc x ys else x :: y :: ys

def sortCountDesc (cs : List (String × Nat)) : List (String × Nat) :=
  cs.foldr insertCountDesc []

def mostCommon (cs : List (String × Nat)) (n : Nat) : List (String × Nat) :=
  (sortCountDesc cs).take n

/-- One `[A-Z][a-z]+` unit of the phrase regex. -/
def matchUnit : List Char → Option (List Char × List Char)
  | [] => none
  | c :: rest =>
    if isUpperAZ c then
      let (lo, r) := rest.span isLowerAZ
      if lo.isEmpty then none else some (c :: lo, r)
    else none

/-- Greedy `(?:\s+[A-Z][a-z]+)*` continuation followed by the closing `\b`.
`acc` is the text matched so far (which ends after an `[a-z]+` run).  When
the greedy extension fails further on, the regex engine backtracks one unit
and closes at `l`, which then starts with whitespace — a word boundary. -/
def matchTail (fuel : Nat) (acc : List Char) (l : List Char) :
    Option (List Char × List Char) :=
  match fuel with
  | 0 => if boundaryAfter l then some (acc, l) else none
  | fuel + 1 =>
    let (ws, r) := l.span Char.isWhitespace
    if ws.isEmpty then
      if boundaryAfter l then some (acc, l) else none
    else
      match matchUnit r with
      | none => if boundaryAfter l then some (acc, l) else none
      | some (u, r2) =>
        match matchTail fuel (acc ++ ws ++ u) r2 with
        | some res => some res
        | none => some (acc, l)

/-- `re.finditer(r'\b([A-Z][a-z]+(?:\s+[A-Z][a-z]+)*)\b', text)`:
left-to-right, non-overlapping; after a failed attempt the scan advances
one character.  `prev` is the character before the current position, for
the leading word-boundary test. -/
def findCapPhrases (fuel : Nat) (prev : Option Char) (l : List Char) :
    List (List Char) :=
  match fuel with
  | 0 => []
  | fuel + 1 =>
    match l with
    | [] => []
    | c :: rest =>
      if (match prev with | none => true | some p => !isWordChar p) then
        match matchUnit (c :: rest) with
        | some (u, r1) =>
          match matchTail r1.length u r1 with
          | some (m, r2) => m :: findCapPhrases fuel m.getLast? r2
          | none => findCapPhrases fuel (some c) rest
        | none => findCapPhrases fuel (some c) rest
      else findCapPhrases fuel (some c) rest

/-- The phrase pass of `extract_topics_local`: the source runs the finder
over `original_text`, a variable assigned *after* the text was lowercased
and stripped, then lowercases each match. -/
def phrasePass (t : String) : List String :=
  (findCapPhrases t.data.length none t.data).map (fun cs => lowerStr ⟨cs⟩)

def extractTopicsLocal (text : String) (maxTopics : Nat := 3) : List String :=
  if text = ("") || text.length < 20 then []
  else
    let t := normalizeText text
    let words := (pySplit t).filter
      (fun w => !defaultStopwords.contains w && w.length > 2)
    let counts := buildCounter words
    let counts := (phrasePass t).foldl (fun cs p => bumpBy cs p 5) counts
    (mostCommon counts maxTopics).map (fun p => p.1)

/-- `_extract_topics`: the Claude path is commented out in the source; it
just defers to `extract_topics_local` with the default `max_topics`. -/
def extractTopics (content : String) : List String := extractTopicsLocal content 3

/-- `extract_topics_local` with the phrase pass removed: plain word
frequencies only.  Used to state that the phrase pass of the source is dead
code (its `original_text` is already lowercased). -/
def extractTopicsLocalPlain (text : String) (maxTopics : Nat := 3) : List String :=
  if text = ("") || text.length < 20 then []
  else
    let t := normalizeText text
    let words := (pySplit t).filter
      (fun w => !defaultStopwords.contains w && w.length > 2)
    (mostCommon (buildCounter words) maxTopics).map (fun p => p.1)

/-! ### Insert paths: `_analyze_and_store` and `store_insight` -/

/-- The `memory_data` dict packaged by `store_insight`. -/
structure MemoryData where
  content : String
  source : Option String
  timestamp : ℚ
  context : Option String
  app_name : Option String
deriving DecidableEq

/-- `SELECT COUNT(*) FROM memories WHERE is_consolidated = 0`. -/
def countUnconsolidated (st : Store) : Nat :=
  (st.memories.filter (fun m => !m.is_consolidated)).length

/-- `_analyze_and_store`: score, store when the threshold is met, then ask
`_maybe_trigger_consolidation` whether to enqueue a consolidation job.
Returns (new row id or `none`, updated store, consolidation enqueued?). -/
def analyzeAndStore (cfg : Cfg) (st : Store) (d : MemoryData) :
    Option Nat × Store × Bool :=
  let score := calcRelevance st d.content d.context d.app_name
  if cfg.relevance_threshold ≤ score then
    let row : MemRow :=
      { id := st.nextMemId, content := d.content, source := d.source,
        timestamp := d.timestamp, relevance_score := score,
        context := d.context, app_name := d.app_name,
        topics := extractTopics d.content }
    let st' := { st with memories := st.memories ++ [row],
                         nextMemId := st.nextMemId + 1 }
    (some row.id, st', decide (10 ≤ countUnconsolidated st'))
  else (none, st, false)

/-- Add a fingerprint to `recent_content_hashes`; on overflow the source
pops an arbitrary set element — we drop the oldest. -/
def pushHash (hs : List String) (fp : String) : List String :=
  let hs := hs ++ [fp]
  if hs.length > 100 then hs.drop 1 else hs

inductive StoreResult where
  | stored (id : Nat)
  | rejected
  | queued
deriving DecidableEq

/-- `store_insight(content, source, context, app_name, analyze_now, topics)`.
`hash(content[:100])` is modelled by the 100-character prefix itself.
Python's `if topics:` is false for both `None` and `[]`, so the topics
argument is one list with `[]` meaning "no explicit topics".  Returns
(result, updated store, consolidation enqueued?). -/
def storeInsight (cfg : Cfg) (st : Store) (content : String)
    (source context app_name : Option String) (analyzeNow : Bool)
    (topics : List String) (now : ℚ) : StoreResult × Store × Bool :=
  let fp := pyTake 100 content
  if st.recentHashes.contains fp then (.rejected, st, false)
  else
    let st := { st with recentHashes := pushHash st.recentHashes fp }
    if !quickRelevanceCheck content app_name then (.rejected, st, false)
    else
      let d : MemoryData :=
        { content := content, source := source, timestamp := now,
          context := context, app_name := app_name }
      if topics ≠ [] then
        let row : MemRow :=
          { id := st.nextMemId, content := content, source := source,
            timestamp := now, relevance_score := 8/10, context := context,
            app_name := app_name, topics := topics }
        (.stored row.id,
         { st with memories := st.memories ++ [row],
                   nextMemId := st.nextMemId + 1 }, false)
      else if analyzeNow then
        let res := analyzeAndStore cfg st d
        ((match res.1 with
          | some i => .stored i
          | none => .rejected), res.2.1, res.2.2)
      else (.queued, st, false)

/-! ### `retrieve_relevant_memories` -/

/-- Stable insertion sort with a strict "comes first" test `gt`; equal keys
keep their original order (SQLite leaves tie order unspecified — no theorem
below depends on it). -/
def insertDescBy (gt : α → α → Bool) (x : α) : List α → List α
  | [] => [x]
  | y :: ys => if gt y x then y :: insertDescBy gt x ys else x :: y :: ys

def sortDescBy (gt : α → α → Bool) (l : List α) : List α :=
  l.foldr (insertDescBy gt) []

def memRelGt (a b : MemRow) : Bool := b.relevance_score < a.relevance_score

def memRelTsGt (a b : MemRow) : Bool :=
  b.relevance_score < a.relevance_score ||
    (a.relevance_score == b.relevance_score && b.timestamp < a.timestamp)

def memTsGt (a b : MemRow) : Bool := b.timestamp < a.timestamp

/-- `ORDER BY last_accessed DESC`: SQLite sorts NULL below every value in
descending order. -/
def consLastAccGt (a b : ConsRow) : Bool :=
  match a.last_accessed, b.last_accessed with
  | some x, some y => y < x
  | some _, none => true
  | _, _ => false

/-- Python truthiness of an optional string argument (`if query:` is false
for `None` and for the empty string). -/
def optTruthy : Option String → Option String
  | some s => if s = ("") then none else some s
  | none => none

/-- The insight `SELECT` of `retrieve_relevant_memories`. -/
def selectInsights (st : Store) (query context app_name : Option String)
    (limit : Nat) : List MemRow :=
  match optTruthy query with
  | some q =>
    (sortDescBy memRelGt (st.memories.filter
      (fun m => likeContains m.content q))).take limit
  | none =>
    match optTruthy context with
    | some ctx =>
      if simpleTopicExtraction ctx ≠ [] then
        (sortDescBy memRelGt (st.memories.filter
          (fun m => (simpleTopicExtraction ctx).any
            (fun t => likeContains (jsonDumps m.topics) t)))).take limit
      else
        -- `WHERE app_name = ?`: a NULL parameter matches no row.
        match app_name with
        | some a =>
          (sortDescBy memTsGt (st.memories.filter
            (fun m => m.app_name == some a))).take limit
        | none => []
    | none => (sortDescBy memRelTsGt st.memories).take limit

/-- The consolidated-memories top-up `SELECT`. -/
def selectConsolidated (st : Store) (query : Option String)
    (remaining : Nat) : List ConsRow :=
  match optTruthy query with
  | some q =>
    (sortDescBy consLastAccGt (st.consolidated.filter
      (fun c => likeContains c.content q))).take remaining
  | none => (sortDescBy consLastAccGt st.consolidated).take remaining

def bumpMem (now : ℚ) (m : MemRow) : MemRow :=
  { m with access_count := m.access_count + 1, last_accessed := some now }

def bumpCons (now : ℚ) (c : ConsRow) : ConsRow :=
  { c with access_count := c.access_count + 1, last_accessed := some now }

/-- `retrieve_relevant_memories(query, context, app_name, limit)`: select,
top up with consolidated memories when short of `limit`, then run one
`UPDATE ... SET access_count = access_count + 1, last_accessed = ? WHERE
id = ?` per returned row.  Returns the rows as fetched (pre-update) and
the updated store. -/
def retrieveRelevantMemories (st : Store) (query context app_name : Option String)
    (limit : Nat) (now : ℚ) : (List MemRow × List ConsRow) × Store :=
  let mems := selectInsights st query context app_name limit
  let cons :=
    if mems.length < limit then
      selectConsolidated st query (limit - mems.length)
    else []
  let memTable := (mems.map (fun m => m.id)).foldl
    (fun tbl i => tbl.map (fun m => if m.id = i then bumpMem now m else m))
    st.memories
  let consTable := (cons.map (fun c => c.id)).foldl
    (fun tbl i => tbl.map (fun c => if c.id = i then bumpCons now c else c))
    st.consolidated
  ((mems, cons), { st with memories := memTable, consolidated := consTable })

/-! ### `clear_old_memories` -/

/-- Returns (the value `count_to_delete` computed by the source — the number
of insights older than the threshold, counted before any deletion — and the
store after both `DELETE` statements). -/
def clearOldMemories (st : Store) (days now : ℚ) : Nat × Store :=
  let thresholdTime := now - days * 86400
  let countToDelete := (st.memories.filter
    (fun m => decide (m.timestamp < thresholdTime))).length
  let mems := st.memories.filter (fun m =>
    !(decide (m.timestamp < thresholdTime) && decide (m.relevance_score < 7/10)
      && decide (m.access_count < 3)))
  let cons := st.consolidated.filter (fun c =>
    !(decide (c.timestamp < thresholdTime) && decide (c.access_count < 2)))
  (countToDelete, { st with memories := mems, consolidated := cons })

/-! ### `_consolidate_memories` -/

/-- One entry of the `topic_groups` dict: the group's (growing) topic set
and its members as (id, content), in the order they were appended. -/
structure Group where
  topics : List String
  members : List (Nat × String)
deriving DecidableEq

def Group.ids (g : Group) : List Nat := g.members.map (fun p => p.1)

def Group.contents (g : Group) : List String := g.members.map (fun p => p.2)

/-- Assign one memory to the first group whose topic set intersects its
topics (`any(topic in group_topics for topic in topics)`), unioning the
topic sets; otherwise open a new group at the end. -/
def insertIntoGroups (mid : Nat) (content : String) (topics : List String) :
    List Group → List Group
  | [] => [{ topics := topics, members := [(mid, content)] }]
  | g :: rest =>
    if topics.any (fun t => g.topics.contains t) then
      { topics := firstDedup (g.topics ++ topics),
        members := g.members ++ [(mid, content)] } :: rest
    else g :: insertIntoGroups mid content topics rest

/-- The grouping pass: unconsolidated memories, newest first, greedily
assigned first-match.  (In the model `topics` always parses, so the
`json.JSONDecodeError` skip branch of the source is never taken.) -/
def buildGroups (st : Store) : List Group :=
  let unconsolidated := sortDescBy memTsGt
    (st.memories.filter (fun m => !m.is_consolidated))
  unconsolidated.foldl (fun gs m => insertIntoGroups m.id m.content m.topics gs) []

/-- Processing of one group: groups of ≥3 members get a summary from the
LLM oracle `gen` (`none` models the caught exception path of
`_generate_summary`); a truthy summary is inserted as a consolidated row
and the members are marked `is_consolidated = 1`. -/
def processGroup (gen : List String → List String → Option String) (now : ℚ)
    (acc : Store) (g : Group) : Store :=
  if 3 ≤ g.members.length then
    match gen g.contents g.topics with
    | some summary =>
      if summary ≠ ("") then
        { acc with
          consolidated := acc.consolidated ++
            [{ id := acc.nextConsId, content := summary,
               source_ids := g.ids, timestamp := now, topics := g.topics }],
          nextConsId := acc.nextConsId + 1,
          memories := acc.memories.map (fun m =>
            if g.ids.contains m.id then { m with is_consolidated := true } else m) }
      else acc
    | none => acc
  else acc

/-- `_consolidate_memories` (the trailing profile-update job it enqueues is
a separate queue operation, modelled by `updateUserProfile`). -/
def consolidateMemories (gen : List String → List String → Option String)
    (st : Store) (now : ℚ) : Store :=
  (buildGroups st).foldl (processGroup gen now) st

/-! ### `_update_user_profile` and `add_journal_entry` -/

/-- `_update_user_profile`: top-10 topics of the 100 most recent memories
become the new `user_interests` (the `frequent_apps` column feeds no claim
and is not carried in `Store`). -/
def updateUserProfile (st : Store) : Store :=
  let recent := (sortDescBy memTsGt st.memories).take 100
  let allTopics := recent.foldr (fun m acc => m.topics ++ acc) []
  let counts := buildCounter allTopics
  { st with userInterests := ((sortCountDesc counts).take 10).map (fun p => p.1) }

/-- The content of the insight derived from a journal entry:
`f"Journal Entry: {title}\n{content[:200]}..."`. -/
def journalInsightContent (title content : String) : String :=
  "Journal Entry: " ++ title ++ "\n" ++ pyTake 200 content ++ "..."

/-- `add_journal_entry`, restricted to its effect on the memory store (the
`journal_entries` table feeds no claim): it extracts topics locally from
the entry content and stores a derived insight with `source="journal"`,
`app_name="journal"`, the full content as context, and `analyze_now`
defaulted to `False`. -/
def addJournalEntry (cfg : Cfg) (st : Store) (title content : String) (now : ℚ) :
    StoreResult × Store × Bool :=
  storeInsight cfg st (journalInsightContent title content)
    (some ("journal")) (some content) (some ("journal")) false
    (extractTopicsLocal content 3) now

/-! ### The operations of the store, as one step relation -/

/-- Every operation of `SmartMemorySystem` that can touch the `memories`
table (plus the profile updater).  The queue worker's `store` job is
`processQueuedStore`; `consolidate` carries its LLM oracle. -/
inductive Op where
  | insight (content : String) (source context app_name : Option String)
      (analyzeNow : Bool) (topics : List String) (now : ℚ)
  | processQueuedStore (d : MemoryData)
  | retrieve (query context app_name : Option String) (limit : Nat) (now : ℚ)
  | clearOld (days now : ℚ)
  | consolidate (gen : List String → List String → Option String) (now : ℚ)
  | updateProfile
  | updateCategory (id : Nat) (category : String)
  | updateContent (id : Nat) (content : String)
  | deleteInsight (id : Nat)
  | journal (title content : String) (now : ℚ)

/-- `update_insight_category`: append the category to the row's topics when
absent. -/
def applyUpdateCategory (st : Store) (i : Nat) (cat : String) : Store :=
  { st with memories := st.memories.map (fun m =>
      if m.id = i then
        { m with topics := if m.topics.contains cat then m.topics else m.topics ++ [cat] }
      else m) }

def applyUpdateContent (st : Store) (i : Nat) (content : String) : Store :=
  { st with memories := st.memories.map (fun m =>
      if m.id = i then { m with content := content } else m) }

def applyDeleteInsight (st : Store) (i : Nat) : Store :=
  { st with memories := st.memories.filter (fun m => m.id ≠ i) }

def step (cfg : Cfg) (st : Store) : Op → Store
  | .insight content source context app_name analyzeNow topics now =>
    (storeInsight cfg st content source context app_name analyzeNow topics now).2.1
  | .processQueuedStore d => (analyzeAndStore cfg st d).2.1
  | .retrieve query context app_name limit now =>
    (retrieveRelevantMemories st query context app_name limit now).2
  | .clearOld days now => (clearOldMemories st days now).2
  | .consolidate gen now => consolidateMemories gen st now
  | .updateProfile => updateUserProfile st
  | .updateCategory i cat => applyUpdateCategory st i cat
  | .updateContent i content => applyUpdateContent st i content
  | .deleteInsight i => applyDeleteInsight st i
  | .journal title content now => (addJournalEntry cfg st title content now).2.1

/-- One stored insight either meets the configured relevance threshold or
carries the fixed score 0.8 of the explicit-topics bypass path. -/
def RelOk (cfg : Cfg) (m : MemRow) : Prop :=
  cfg.relevance_threshold ≤ m.relevance_score ∨ m.relevance_score = 8/10

instance (cfg : Cfg) (m : MemRow) : Decidable (RelOk cfg m) := by
  unfold RelOk
  infer_instance

/-- The invariant of claim C6 over the whole `memories` table. -/
def Inv (cfg : Cfg) (st : Store) : Prop := ∀ m ∈ st.memories, RelOk cfg m

instance (cfg : Cfg) (st : Store) : Decidable (Inv cfg st) := by
  unfold Inv
  infer_instance

/-- The number of `consolidated_memories` rows whose `source_ids` equals a
given id list. -/
def countSourceRows (cs : List ConsRow) (ids : List Nat) : Nat :=
  (cs.filter (fun c => decide (c.source_ids = ids))).length

/-- The concatenated member ids of a list of topic groups. -/
def joinIds : List Group → List Nat
  | [] => []
  | g :: rest => g.ids ++ joinIds rest

/-! ### Concrete fixtures used by witnesses and counterexamples -/

/-- The content of the spec's end-to-end scenario (claim C1). -/
def c1Content : String :=
  "You should submit the quarterly report by Friday, it's important"

/-- An old but high-value insight: older than any clearing threshold used
below, `access_count = 5`, `relevance_score = 0.9`. -/
def c4Row : MemRow :=
  { id := 1, content := ("kept"), source := none, timestamp := 0,
    relevance_score := 9/10, context := none, app_name := none,
    topics := [], access_count := 5 }

def c4Store : Store := { memories := [c4Row] }

/-- A configuration whose threshold 0 lets the scoring path store records:
used to witness that scored inserts meet their threshold. -/
def c6Cfg : Cfg := { relevance_threshold := 0 }

def c6Data : MemoryData :=
  { content := ("Remember the project deadline"), source := none,
    timestamp := 0, context := none, app_name := none }

/-- The row that `_analyze_and_store` creates for `c6Data` on a fresh store. -/
def c6Row : MemRow :=
  { id := 1, content := c6Data.content, source := none, timestamp := 0,
    relevance_score := calcRelevance {} c6Data.content none none,
    context := none, app_name := none,
    topics := extractTopics c6Data.content }

/-- Fixtures for the retrieval frame claim: two insights and one
consolidated memory with pairwise distinct ids. -/
def c8Row1 : MemRow :=
  { id := 1, content := ("alpha note one"), source := none, timestamp := 1,
    relevance_score := 8/10, context := none, app_name := none,
    topics := [("alpha")] }

def c8Row2 : MemRow :=
  { id := 2, content := ("beta note two"), source := none, timestamp := 2,
    relevance_score := 8/10, context := none, app_name := none,
    topics := [("beta")] }

def c8Cons : ConsRow :=
  { id := 1, content := ("summary of alpha"), source_ids := [1],
    timestamp := 0, topics := [("alpha")] }

def c8Store : Store :=
  { memories := [c8Row1, c8Row2], consolidated := [c8Cons],
    nextMemId := 3, nextConsId := 2 }

/-- Fixtures for the consolidation claims: ten unconsolidated insights all
sharing the topic "alpha", so the grouping pass yields one group of ten. -/
def c7Row (i : Nat) : MemRow :=
  { id := i + 1, content := ("alpha note"), source := none,
    timestamp := (i : ℚ), relevance_score := 8/10, context := none,
    app_name := none, topics := [("alpha")] }

def c7Store : Store :=
  { memories := (List.range 10).map c7Row, nextMemId := 11 }

/-- An always-succeeding LLM summary oracle. -/
def c7Gen : List String → List String → Option String :=
  fun _ _ => some ("combined summary")

/-- The single group built from `c7Store`: members newest first. -/
def c7Group : Group :=
  { topics := [("alpha")],
    members := (List.range 10).map (fun i => (10 - i, ("alpha note"))) }

/-- An always-failing LLM summary oracle (the caught-exception path of
`_generate_summary`). -/
def c9Gen : List String → List String → Option String := fun _ _ => none

/-! ## Theorems

Shared helper lemmas come first; the claim theorems (and their witnesses
and counterexamples) reference only definitions and helpers.  Batteries
marks the `Rat` field operations irreducible; concrete evaluations by
`decide` need them unfolded, so they are locally semireducible here. -/

section Verification

attribute [local semireducible] Rat.add Rat.sub Rat.mul Rat.inv Rat.ofScientific

theorem ratMin_le_left (a b : ℚ) : ratMin a b ≤ a := by
  unfold ratMin
  split_ifs with h
  · exact le_refl a
  · linarith

theorem ratMin_le_right (a b : ℚ) : ratMin a b ≤ b := by
  unfold ratMin
  split_ifs with h
  · exact h
  · exact le_refl b

theorem ratMax_le {a b c : ℚ} (h1 : a ≤ c) (h2 : b ≤ c) : ratMax a b ≤ c := by
  unfold ratMax
  split_ifs <;> assumption

theorem ruleScore_le (content : String) : ruleScore content ≤ 45/100 := by
  simp only [ruleScore]
  split_ifs <;> norm_num

theorem interestScore_le (st : Store) (content : String) :
    interestScore st content ≤ 3/10 := by
  simp only [interestScore]
  split_ifs <;> norm_num

theorem historicalScore_le (st : Store) (content : String) :
    historicalScore st content ≤ 3/10 := by
  simp only [historicalScore]
  split_ifs with h
  · norm_num
  · exact ratMin_le_left _ _

theorem appScore_le (st : Store) (app_name : Option String) :
    appScore st app_name ≤ 2/10 := by
  unfold appScore
  split
  · norm_num
  · split_ifs with h
    · norm_num
    · exact ratMin_le_left _ _

theorem calcRelevance_le (st : Store) (content : String)
    (context app_name : Option String) :
    calcRelevance st content context app_name ≤ 35/100 := by
  simp only [calcRelevance]
  have hr := ruleScore_le content
  have hi := interestScore_le st content
  have hh := historicalScore_le st content
  have ha := appScore_le st app_name
  have hf : ruleScore content * (4/10) + interestScore st content * (3/10)
      + historicalScore st content * (2/10) + appScore st app_name * (1/10)
      ≤ 35/100 := by nlinarith
  calc ratMin 1 (ratMax 0 (ruleScore content * (4/10) + interestScore st content * (3/10)
        + historicalScore st content * (2/10) + appScore st app_name * (1/10)))
      ≤ ratMax 0 (ruleScore content * (4/10) + interestScore st content * (3/10)
        + historicalScore st content * (2/10) + appScore st app_name * (1/10)) :=
        ratMin_le_right _ _
    _ ≤ 35/100 := ratMax_le (by norm_num) hf

theorem analyzeAndStore_default (st : Store) (d : MemoryData) :
    analyzeAndStore defaultCfg st d = (none, st, false) := by
  have h := calcRelevance_le st d.content d.context d.app_name
  simp only [analyzeAndStore]
  rw [if_neg]
  intro hle
  have : (defaultCfg.relevance_threshold : ℚ) = 6/10 := rfl
  rw [this] at hle
  linarith

/-- C2: for every content, context, app name and store/profile state the
relevance score computed by `_calculate_relevance` is at most 0.35 (rule
sub-score ≤ 0.45, interest ≤ 0.3, historical ≤ 0.3, app ≤ 0.2, weighted
0.4/0.3/0.2/0.1); consequently with the default threshold 0.6 the
no-explicit-topics path `_analyze_and_store` never stores a record. -/
theorem claim_C2 :
    (∀ (st : Store) (content : String) (context app_name : Option String),
        calcRelevance st content context app_name ≤ 35/100) ∧
    (∀ (st : Store) (d : MemoryData),
        analyzeAndStore defaultCfg st d = (none, st, false)) :=
  ⟨fun st content context app_name => calcRelevance_le st content context app_name,
   fun st d => analyzeAndStore_default st d⟩


/-- C1: evaluation of the code on the spec's end-to-end scenario, with any
empty-profile store and the default threshold 0.6.  The content passes the
quick check, but `_calculate_relevance` returns 0.12 = 3/25 (rule score 0.3
weighted by 0.4; every other sub-score 0), which is below 0.6, so the
synchronous insert is rejected, nothing is stored (only the duplicate
fingerprint is recorded), and the follow-up retrieval by
`context="quarterly report"` returns nothing. -/
theorem claim_C1 :
    quickRelevanceCheck c1Content (some ("Mail")) = true ∧
    calcRelevance {} c1Content none (some ("Mail")) = 3/25 ∧
    ((3 : ℚ)/25 < defaultCfg.relevance_threshold) ∧
    storeInsight defaultCfg {} c1Content none none (some ("Mail")) true [] 0
      = (.rejected, { recentHashes := [c1Content] }, false) ∧
    (retrieveRelevantMemories { recentHashes := [c1Content] } none
      (some ("quarterly report")) none 5 0).1 = ([], []) :=
  ⟨by decide, by decide, by decide, by decide, by decide⟩

/-- C3, counterexample: `store_insight` with the non-empty explicit topic
list `["x"]` but a 5-character content is rejected by
`_quick_relevance_check` before the explicit-topics branch is reached, and
no record is created — refuting "a record is created with relevance_score
exactly 0.8 ... regardless of content length". -/
theorem claim_C3_cx :
    (storeInsight defaultCfg {} ("short") none none none true [("x")] 0).1
        = .rejected ∧
    (storeInsight defaultCfg {} ("short") none none none true [("x")] 0).2.1.memories
        = [] := by
  exact ⟨by decide, by decide⟩

/-- C3, amended: when the content's 100-character fingerprint is not in the
recent-duplicate cache and the content passes `_quick_relevance_check`, a
call to `store_insight` with a non-empty explicit topics list always
creates a record with `relevance_score` exactly 0.8, regardless of the
computed relevance score. -/
theorem claim_C3_amended (cfg : Cfg) (st : Store) (content : String)
    (source context app_name : Option String) (analyzeNow : Bool)
    (topics : List String) (now : ℚ)
    (hdup : st.recentHashes.contains (pyTake 100 content) = false)
    (hquick : quickRelevanceCheck content app_name = true)
    (htopics : topics ≠ []) :
    storeInsight cfg st content source context app_name analyzeNow topics now
      = (.stored st.nextMemId,
         { st with
           recentHashes := pushHash st.recentHashes (pyTake 100 content),
           memories := st.memories ++
             [{ id := st.nextMemId, content := content, source := source,
                timestamp := now, relevance_score := 8/10, context := context,
                app_name := app_name, topics := topics }],
           nextMemId := st.nextMemId + 1 }, false) := by
  have hd : pyTake 100 content ∉ st.recentHashes := by simpa using hdup
  simp [storeInsight, hd, hquick, htopics]

/-- Witness for the amended C3 at a concrete call. -/
theorem claim_C3_amended_witness :
    (({} : Store).recentHashes).contains (pyTake 100 ("Remember to buy milk tomorrow")) = false ∧
    quickRelevanceCheck ("Remember to buy milk tomorrow") none = true ∧
    ([("groceries")] : List String) ≠ [] ∧
    storeInsight defaultCfg {} ("Remember to buy milk tomorrow") none none none
        false [("groceries")] 7
      = (.stored 1,
         { recentHashes := [("Remember to buy milk tomorrow")],
           memories := [{ id := 1,
                          content := ("Remember to buy milk tomorrow"),
                          source := none, timestamp := 7,
                          relevance_score := 8/10, context := none,
                          app_name := none, topics := [("groceries")] }],
           nextMemId := 2 }, false) :=
  ⟨by decide, by decide, by decide, by
    rw [claim_C3_amended defaultCfg {} ("Remember to buy milk tomorrow") none none
      none false [("groceries")] 7 (by decide) (by decide) (by decide)]
    decide⟩

/-- C4, counterexample: on a store holding exactly one insight that is
older than the threshold but high-value (`access_count = 5`,
`relevance_score = 0.9`), `clear_old_memories(30)` deletes nothing yet
returns 1 — refuting "returns the number of records it deleted". -/
theorem claim_C4_cx :
    (clearOldMemories c4Store 30 (100 * 86400)).1 = 1 ∧
    (clearOldMemories c4Store 30 (100 * 86400)).2.memories = [c4Row] := by
  exact ⟨by decide, by decide⟩

/-- C4, amended: `clear_old_memories` deletes exactly the insights older
than the threshold with `relevance_score < 0.7` and `access_count < 3`, and
exactly the consolidated memories older than the threshold with
`access_count < 2`; an old record with `access_count = 5` and
`relevance_score = 0.9` is never deleted; the returned count is the number
of insights older than the threshold (counted before deletion), whether or
not they are deleted. -/
theorem claim_C4_amended (st : Store) (days now : ℚ) :
    ((clearOldMemories st days now).1 =
      (st.memories.filter
        (fun m => decide (m.timestamp < now - days * 86400))).length) ∧
    (∀ m ∈ st.memories,
      (m ∈ (clearOldMemories st days now).2.memories ↔
        ¬(m.timestamp < now - days * 86400 ∧ m.relevance_score < 7/10 ∧
          m.access_count < 3))) ∧
    (∀ c ∈ st.consolidated,
      (c ∈ (clearOldMemories st days now).2.consolidated ↔
        ¬(c.timestamp < now - days * 86400 ∧ c.access_count < 2))) ∧
    (∀ m ∈ st.memories, m.timestamp < now - days * 86400 → m.access_count = 5 →
      m.relevance_score = 9/10 → m ∈ (clearOldMemories st days now).2.memories) := by
  refine ⟨rfl, ?_, ?_, ?_⟩
  · intro m hm
    simp only [clearOldMemories, List.mem_filter, hm, true_and]
    simp only [Bool.not_eq_true', Bool.and_eq_false_iff, decide_eq_false_iff_not,
      not_lt, not_and, not_or]
    constructor
    · rintro ((h | h) | h) h1 h2
      · linarith
      · linarith
      · exact h
    · intro h
      rcases lt_or_le m.timestamp (now - days * 86400) with h1 | h1
      · rcases lt_or_le m.relevance_score (7/10) with h2 | h2
        · exact Or.inr (h h1 h2)
        · exact Or.inl (Or.inr h2)
      · exact Or.inl (Or.inl (by linarith))
  · intro c hc
    simp only [clearOldMemories, List.mem_filter, hc, true_and]
    simp only [Bool.not_eq_true', Bool.and_eq_false_iff, decide_eq_false_iff_not,
      not_lt, not_and, not_or]
    constructor
    · rintro (h | h) h1
      · linarith
      · exact h
    · intro h
      rcases lt_or_le c.timestamp (now - days * 86400) with h1 | h1
      · exact Or.inr (h h1)
      · exact Or.inl (by linarith)
  · intro m hm hts hacc hrel
    simp only [clearOldMemories, List.mem_filter]
    refine ⟨hm, ?_⟩
    simp only [Bool.not_eq_true', Bool.and_eq_false_iff, decide_eq_false_iff_not]
    right
    rw [hacc]
    omega

/-- Witness for the amended C4 at the concrete store of the counterexample. -/
theorem claim_C4_amended_witness :
    c4Row ∈ c4Store.memories ∧
    c4Row.timestamp < 100 * 86400 - 30 * 86400 ∧
    c4Row ∈ (clearOldMemories c4Store 30 (100 * 86400)).2.memories :=
  ⟨by decide, by decide,
   (claim_C4_amended c4Store 30 (100 * 86400)).2.2.2 c4Row (by decide)
     (by decide) (by decide) (by decide)⟩

theorem char_toNat_le_of_le {a b : Char} (h : a ≤ b) : a.toNat ≤ b.toNat := h

theorem isUpperAZ_lowerChar (c : Char) : isUpperAZ (lowerChar c) = false := by
  unfold lowerChar
  split_ifs with h
  · have h1 : 'A' ≤ c ∧ c ≤ 'Z' := by simpa using h
    have hZ : c.toNat ≤ 90 := by
      have := char_toNat_le_of_le h1.2
      simpa using this
    have hv : (c.toNat + 32).isValidChar := Or.inl (by omega)
    have ht : (Char.ofNat (c.toNat + 32)).toNat = c.toNat + 32 := by
      rw [Char.ofNat, dif_pos hv]
      rfl
    have hle : ¬(Char.ofNat (c.toNat + 32) ≤ 'Z') := by
      intro hc
      have h90 : (Char.ofNat (c.toNat + 32)).toNat ≤ 90 := by
        have := char_toNat_le_of_le hc
        simpa using this
      rw [ht] at h90
      have hA : 65 ≤ c.toNat := by
        have := char_toNat_le_of_le h1.1
        simpa using this
      omega
    simp [isUpperAZ, hle]
  · simp only [isUpperAZ]
    simpa using h

theorem matchUnit_none {c : Char} (rest : List Char)
    (hc : isUpperAZ c = false) : matchUnit (c :: rest) = none := by
  simp [matchUnit, hc]

theorem findCapPhrases_eq_nil (fuel : Nat) :
    ∀ (l : List Char) (prev : Option Char),
      (∀ c ∈ l, isUpperAZ c = false) → findCapPhrases fuel prev l = [] := by
  induction fuel with
  | zero => intro l prev _; rfl
  | succ n ih =>
    intro l prev h
    match l with
    | [] => rfl
    | c :: rest =>
      have hc : isUpperAZ c = false := h c (by simp)
      have hrest : ∀ x ∈ rest, isUpperAZ x = false :=
        fun x hx => h x (List.mem_cons_of_mem _ hx)
      simp only [findCapPhrases, matchUnit_none rest hc]
      split_ifs <;> exact ih rest (some c) hrest

theorem normalizeText_no_upper (text : String) :
    ∀ c ∈ (normalizeText text).data, isUpperAZ c = false := by
  intro c hc
  have hmem : c ∈ text.data.map lowerChar := by
    have : (normalizeText text).data
        = (text.data.map lowerChar).filter (fun c => isWordChar c || c.isWhitespace) := rfl
    rw [this] at hc
    exact List.mem_of_mem_filter hc
  obtain ⟨c0, _, rfl⟩ := List.mem_map.1 hmem
  exact isUpperAZ_lowerChar c0

theorem phrasePass_normalize_eq_nil (text : String) :
    phrasePass (normalizeText text) = [] := by
  unfold phrasePass
  rw [findCapPhrases_eq_nil _ _ none (normalizeText_no_upper text)]
  rfl

/-- C5: the phrase detector of `extract_topics_local` runs over
`original_text`, which the source assigns *after* lowercasing and
stripping the text, so it never finds a capitalised sequence: the +5 boost
is dead and the returned topics are ranked by plain word frequency alone.
Concretely, for the input "John Smith meeting meeting meeting" — which
contains the capitalised two-word entity "John Smith" next to a more
frequent plain word — the result is ["meeting", "john", "smith"]; the
boosted phrase "john smith" (weight 5+0 > 3) that the claim predicts is
absent. -/
theorem claim_C5 :
    extractTopicsLocal ("John Smith meeting meeting meeting") 3
        = [("meeting"), ("john"), ("smith")] ∧
    (∀ text : String, phrasePass (normalizeText text) = []) ∧
    (∀ (text : String) (n : Nat),
        extractTopicsLocal text n = extractTopicsLocalPlain text n) := by
  refine ⟨by decide, phrasePass_normalize_eq_nil, ?_⟩
  intro text n
  unfold extractTopicsLocal extractTopicsLocalPlain
  split_ifs with h
  · rfl
  · simp only [phrasePass_normalize_eq_nil, List.foldl_nil]

theorem extractTopicsLocal_short {t : String} (n : Nat) (h : t.length < 20) :
    extractTopicsLocal t n = [] := by
  unfold extractTopicsLocal
  rw [if_pos]
  simp [h]

theorem extractTopicsLocal_length_le (t : String) (n : Nat) :
    (extractTopicsLocal t n).length ≤ n := by
  unfold extractTopicsLocal
  split_ifs with h
  · simp
  · simp only [List.length_map, mostCommon, List.length_take]
    exact min_le_left _ _

/-- C10: `extract_topics_local` returns `[]` for the empty text and for
every text shorter than 20 characters, returns at most `max_topics` topics
for every input, and a journal entry whose content is shorter than 20
characters passes an empty topic list to `store_insight` for its derived
insight. -/
theorem claim_C10 :
    (∀ n : Nat, extractTopicsLocal ("") n = []) ∧
    (∀ (t : String) (n : Nat), t.length < 20 → extractTopicsLocal t n = []) ∧
    (∀ (t : String) (n : Nat), (extractTopicsLocal t n).length ≤ n) ∧
    (∀ (cfg : Cfg) (st : Store) (title content : String) (now : ℚ),
        content.length < 20 →
        addJournalEntry cfg st title content now
          = storeInsight cfg st (journalInsightContent title content)
              (some ("journal")) (some content) (some ("journal")) false [] now) := by
  refine ⟨?_, ?_, ?_, ?_⟩
  · intro n
    exact extractTopicsLocal_short n (by decide)
  · intro t n h
    exact extractTopicsLocal_short n h
  · intro t n
    exact extractTopicsLocal_length_le t n
  · intro cfg st title content now h
    unfold addJournalEntry
    rw [extractTopicsLocal_short 3 h]

/-- Witness for C10 at a concrete short journal entry. -/
theorem claim_C10_witness :
    ("short note").length < 20 ∧
    extractTopicsLocal ("short note") 3 = [] ∧
    addJournalEntry defaultCfg {} ("today") ("short note") 0
      = storeInsight defaultCfg {} (journalInsightContent ("today") ("short note"))
          (some ("journal")) (some ("short note")) (some ("journal")) false [] 0 :=
  ⟨by decide, claim_C10.2.1 ("short note") 3 (by decide),
   claim_C10.2.2.2 defaultCfg {} ("today") ("short note") 0 (by decide)⟩

theorem relOk_map {cfg : Cfg} {f : MemRow → MemRow}
    (hf : ∀ m, (f m).relevance_score = m.relevance_score)
    {ms : List MemRow} (h : ∀ m ∈ ms, RelOk cfg m) :
    ∀ m ∈ ms.map f, RelOk cfg m := by
  intro m hm
  obtain ⟨m0, hm0, rfl⟩ := List.mem_map.1 hm
  unfold RelOk
  rw [hf m0]
  exact h m0 hm0

theorem relOk_filter {cfg : Cfg} {p : MemRow → Bool}
    {ms : List MemRow} (h : ∀ m ∈ ms, RelOk cfg m) :
    ∀ m ∈ ms.filter p, RelOk cfg m :=
  fun m hm => h m (List.mem_of_mem_filter hm)

theorem analyzeAndStore_inv (cfg : Cfg) (st : Store) (d : MemoryData)
    (h : Inv cfg st) : Inv cfg (analyzeAndStore cfg st d).2.1 := by
  simp only [Inv, analyzeAndStore]
  split_ifs with hs
  · intro m hm
    simp only [List.mem_append, List.mem_singleton] at hm
    rcases hm with hm | hm
    · exact h m hm
    · subst hm
      exact Or.inl hs
  · exact h

theorem storeInsight_inv (cfg : Cfg) (st : Store) (content : String)
    (source context app_name : Option String) (analyzeNow : Bool)
    (topics : List String) (now : ℚ) (h : Inv cfg st) :
    Inv cfg (storeInsight cfg st content source context app_name
      analyzeNow topics now).2.1 := by
  simp only [Inv, storeInsight]
  split_ifs with h1 h2 h3 h4
  · exact h
  · exact h
  · intro m hm
    simp only [List.mem_append, List.mem_singleton] at hm
    rcases hm with hm | hm
    · exact h m hm
    · subst hm
      exact Or.inr rfl
  · exact analyzeAndStore_inv cfg
      { st with recentHashes := pushHash st.recentHashes (pyTake 100 content) }
      { content := content, source := source, timestamp := now,
        context := context, app_name := app_name } h
  · exact h

theorem bumpFold_inv (cfg : Cfg) (now : ℚ) :
    ∀ (ids : List Nat) (ms : List MemRow), (∀ m ∈ ms, RelOk cfg m) →
      ∀ m ∈ ids.foldl
        (fun tbl i => tbl.map (fun a => if a.id = i then bumpMem now a else a)) ms,
        RelOk cfg m := by
  intro ids
  induction ids with
  | nil => intro ms h; exact h
  | cons i rest ih =>
    intro ms h
    exact ih _ (relOk_map (fun m => by by_cases hid : m.id = i <;> simp [bumpMem, hid]) h)

theorem retrieve_inv (st : Store) (query context app_name : Option String)
    (limit : Nat) (now : ℚ) (cfg : Cfg) (h : Inv cfg st) :
    Inv cfg (retrieveRelevantMemories st query context app_name limit now).2 := by
  unfold retrieveRelevantMemories
  exact bumpFold_inv cfg now _ st.memories h

theorem processGroup_inv (cfg : Cfg)
    (gen : List String → List String → Option String) (now : ℚ)
    (acc : Store) (g : Group) (h : Inv cfg acc) :
    Inv cfg (processGroup gen now acc g) := by
  unfold processGroup
  split
  · split
    · split
      · exact fun m hm => relOk_map
          (fun m => by by_cases hid : m.id ∈ g.ids <;> simp [hid]) h m hm
      · exact h
    · exact h
  · exact h

theorem consolidate_inv (cfg : Cfg)
    (gen : List String → List String → Option String) (now : ℚ)
    (st : Store) (h : Inv cfg st) :
    Inv cfg (consolidateMemories gen st now) := by
  unfold consolidateMemories
  generalize buildGroups st = gs
  induction gs generalizing st with
  | nil => exact h
  | cons g rest ih => exact ih _ (processGroup_inv cfg gen now st g h)

theorem step_inv (cfg : Cfg) (st : Store) (op : Op) (h : Inv cfg st) :
    Inv cfg (step cfg st op) := by
  cases op with
  | insight content source context app_name analyzeNow topics now =>
    exact storeInsight_inv cfg st content source context app_name analyzeNow
      topics now h
  | processQueuedStore d => exact analyzeAndStore_inv cfg st d h
  | retrieve query context app_name limit now =>
    exact retrieve_inv st query context app_name limit now cfg h
  | clearOld days now => exact relOk_filter h
  | consolidate gen now => exact consolidate_inv cfg gen now st h
  | updateProfile => exact h
  | updateCategory i cat =>
    exact relOk_map (fun m => by by_cases hid : m.id = i <;> simp [hid]) h
  | updateContent i content =>
    exact relOk_map (fun m => by by_cases hid : m.id = i <;> simp [hid]) h
  | deleteInsight i => exact relOk_filter h
  | journal title content now =>
    exact storeInsight_inv cfg st (journalInsightContent title content)
      (some ("journal")) (some content) (some ("journal")) false
      (extractTopicsLocal content 3) now h

/-- C6: every operation of the store preserves the invariant that each row
of the `memories` table has `relevance_score ≥ relevance_threshold` or the
fixed bypass score 0.8; moreover the scoring path `_analyze_and_store`
(the insert path with no explicit topics) only ever adds rows whose score
meets the threshold, so it never creates a record with
`relevance_score < threshold`. -/
theorem claim_C6 :
    (∀ (cfg : Cfg) (st : Store) (op : Op), Inv cfg st → Inv cfg (step cfg st op)) ∧
    (∀ (cfg : Cfg) (st : Store) (d : MemoryData),
        ∀ m ∈ (analyzeAndStore cfg st d).2.1.memories,
          m ∈ st.memories ∨ cfg.relevance_threshold ≤ m.relevance_score) := by
  constructor
  · exact fun cfg st op h => step_inv cfg st op h
  · intro cfg st d m
    simp only [analyzeAndStore]
    split_ifs with hs
    · intro hm
      simp only [List.mem_append, List.mem_singleton] at hm
      rcases hm with hm | hm
      · exact Or.inl hm
      · subst hm
        exact Or.inr hs
    · exact fun hm => Or.inl hm

/-- Witness for C6: the empty store satisfies the invariant, a concrete
operation preserves it, and a concrete scored insert on a
zero-threshold configuration only adds threshold-meeting rows. -/
theorem claim_C6_witness :
    Inv defaultCfg (step defaultCfg {}
      (Op.insight ("Remember to buy milk tomorrow") none none none false
        [("groceries")] 0)) ∧
    (c6Row ∈ ({} : Store).memories ∨
      c6Cfg.relevance_threshold ≤ c6Row.relevance_score) :=
  ⟨claim_C6.1 defaultCfg {}
      (Op.insight ("Remember to buy milk tomorrow") none none none false
        [("groceries")] 0) (by decide),
   claim_C6.2 c6Cfg {} c6Data c6Row (by decide)⟩

theorem insertDescBy_perm {α : Type} (gt : α → α → Bool) (x : α) :
    ∀ l : List α, List.Perm (insertDescBy gt x l) (x :: l)
  | [] => List.Perm.refl _
  | y :: ys => by
    unfold insertDescBy
    split_ifs
    · exact (List.Perm.cons y (insertDescBy_perm gt x ys)).trans
        (List.Perm.swap x y ys)
    · exact List.Perm.refl _

theorem sortDescBy_perm {α : Type} (gt : α → α → Bool) :
    ∀ l : List α, List.Perm (sortDescBy gt l) l
  | [] => List.Perm.refl _
  | x :: xs =>
    (insertDescBy_perm gt x (sortDescBy gt xs)).trans
      (List.Perm.cons x (sortDescBy_perm gt xs))

theorem nodup_map_take_sort {α : Type} (f : α → Nat) (gt : α → α → Bool)
    (n : Nat) (l : List α) (h : (l.map f).Nodup) :
    (((sortDescBy gt l).take n).map f).Nodup := by
  have hperm : List.Perm ((sortDescBy gt l).map f) (l.map f) :=
    (sortDescBy_perm gt l).map f
  have hsub : List.Sublist (((sortDescBy gt l).take n).map f)
      ((sortDescBy gt l).map f) :=
    (List.take_sublist n _).map f
  exact List.Nodup.sublist hsub (hperm.nodup_iff.mpr h)

theorem nodup_map_filter {α : Type} (f : α → Nat) (p : α → Bool)
    (l : List α) (h : (l.map f).Nodup) : ((l.filter p).map f).Nodup :=
  List.Nodup.sublist ((List.filter_sublist l).map f) h

theorem selectInsights_nodup (st : Store) (q c a : Option String) (lim : Nat)
    (h : (st.memories.map (fun m => m.id)).Nodup) :
    ((selectInsights st q c a lim).map (fun m => m.id)).Nodup := by
  unfold selectInsights
  split
  · exact nodup_map_take_sort _ _ _ _ (nodup_map_filter _ _ _ h)
  · split
    · split_ifs with ht
      · exact nodup_map_take_sort _ _ _ _ (nodup_map_filter _ _ _ h)
      · split
        · exact nodup_map_take_sort _ _ _ _ (nodup_map_filter _ _ _ h)
        · simp
    · exact nodup_map_take_sort _ _ _ _ h

theorem selectConsolidated_nodup (st : Store) (q : Option String) (r : Nat)
    (h : (st.consolidated.map (fun c => c.id)).Nodup) :
    ((selectConsolidated st q r).map (fun c => c.id)).Nodup := by
  unfold selectConsolidated
  split
  · exact nodup_map_take_sort _ _ _ _ (nodup_map_filter _ _ _ h)
  · exact nodup_map_take_sort _ _ _ _ h

theorem foldl_update_eq_map {α : Type} (key : α → Nat) (upd : α → α)
    (hkey : ∀ a, key (upd a) = key a) :
    ∀ (ids : List Nat), ids.Nodup → ∀ tbl : List α,
      ids.foldl (fun t i => t.map (fun a => if key a = i then upd a else a)) tbl
        = tbl.map (fun a => if key a ∈ ids then upd a else a) := by
  intro ids
  induction ids with
  | nil =>
    intro _ tbl
    simp
  | cons i rest ih =>
    intro hnd tbl
    have hi : i ∉ rest := (List.nodup_cons.1 hnd).1
    have hrest : rest.Nodup := (List.nodup_cons.1 hnd).2
    simp only [List.foldl_cons]
    rw [ih hrest _, List.map_map]
    apply List.map_congr_left
    intro a _
    by_cases h1 : key a = i
    · have h2 : key a ∉ rest := by rw [h1]; exact hi
      have h3 : key (upd a) ∉ rest := by rw [hkey]; exact h2
      simp [Function.comp, h1, h2, h3]
    · by_cases h2 : key a ∈ rest <;> simp [Function.comp, h1, h2, hkey]

/-- C8 (retrieval frame): in the store returned by
`retrieve_relevant_memories`, a row of either table is replaced by itself
with `access_count` incremented by exactly 1 and `last_accessed` set to the
call time exactly when its id is among the returned rows of that table, and
is untouched otherwise — assuming the table ids are distinct (the SQLite
primary keys).  No other field of any record changes. -/
theorem claim_C8 (st : Store) (query context app_name : Option String)
    (limit : Nat) (now : ℚ)
    (hmem : (st.memories.map (fun m => m.id)).Nodup)
    (hcons : (st.consolidated.map (fun c => c.id)).Nodup) :
    (retrieveRelevantMemories st query context app_name limit now).2.memories
      = st.memories.map (fun m =>
          if m.id ∈ (retrieveRelevantMemories st query context app_name
              limit now).1.1.map (fun r => r.id)
          then bumpMem now m else m) ∧
    (retrieveRelevantMemories st query context app_name limit now).2.consolidated
      = st.consolidated.map (fun c =>
          if c.id ∈ (retrieveRelevantMemories st query context app_name
              limit now).1.2.map (fun r => r.id)
          then bumpCons now c else c) := by
  constructor
  · simp only [retrieveRelevantMemories]
    exact foldl_update_eq_map (fun m => m.id) (bumpMem now)
      (by intro a; rfl) _
      (selectInsights_nodup st query context app_name limit hmem) st.memories
  · simp only [retrieveRelevantMemories]
    refine foldl_update_eq_map (fun c => c.id) (bumpCons now)
      (by intro a; rfl) _ ?_ st.consolidated
    split_ifs with hlen
    · exact selectConsolidated_nodup st query _ hcons
    · simp

/-- Witness for C8 on a concrete two-insight store. -/
theorem claim_C8_witness :
    (c8Store.memories.map (fun m => m.id)).Nodup ∧
    (c8Store.consolidated.map (fun c => c.id)).Nodup ∧
    (retrieveRelevantMemories c8Store (some ("note")) none none 5 9).2.memories
      = c8Store.memories.map (fun m =>
          if m.id ∈ (retrieveRelevantMemories c8Store (some ("note")) none none
              5 9).1.1.map (fun r => r.id)
          then bumpMem 9 m else m) :=
  ⟨by decide, by decide,
   (claim_C8 c8Store (some ("note")) none none 5 9 (by decide) (by decide)).1⟩

theorem joinIds_insert (mid : Nat) (c : String) (ts : List String) :
    ∀ gs : List Group,
      List.Perm (joinIds (insertIntoGroups mid c ts gs)) (mid :: joinIds gs)
  | [] => by
    simp [insertIntoGroups, joinIds, Group.ids]
  | g :: rest => by
    unfold insertIntoGroups
    split_ifs with hmatch
    · simp only [joinIds, Group.ids, List.map_append, List.map_cons, List.map_nil]
      rw [List.append_assoc]
      exact List.perm_middle
    · simp only [joinIds]
      exact (List.Perm.append_left g.ids (joinIds_insert mid c ts rest)).trans
        List.perm_middle

theorem joinIds_foldl :
    ∀ (ms : List MemRow) (gs : List Group),
      List.Perm
        (joinIds (ms.foldl
          (fun acc m => insertIntoGroups m.id m.content m.topics acc) gs))
        (ms.map (fun m => m.id) ++ joinIds gs)
  | [], gs => by simp
  | m :: rest, gs => by
    simp only [List.foldl_cons, List.map_cons, List.cons_append]
    exact ((joinIds_foldl rest _).trans
      (List.Perm.append_left _ (joinIds_insert m.id m.content m.topics gs))).trans
      List.perm_middle

theorem joinIds_buildGroups (st : Store) :
    List.Perm (joinIds (buildGroups st))
      ((sortDescBy memTsGt (st.memories.filter (fun m => !m.is_consolidated))).map
        (fun m => m.id)) := by
  unfold buildGroups
  simpa [joinIds] using joinIds_foldl
    (sortDescBy memTsGt (st.memories.filter (fun m => !m.is_consolidated))) []

theorem joinIds_buildGroups_nodup (st : Store)
    (h : (st.memories.map (fun m => m.id)).Nodup) :
    (joinIds (buildGroups st)).Nodup := by
  have h1 : ((st.memories.filter (fun m => !m.is_consolidated)).map
      (fun m => m.id)).Nodup := nodup_map_filter _ _ _ h
  have h2 := (((sortDescBy_perm memTsGt
      (st.memories.filter (fun m => !m.is_consolidated))).map
        (fun m => m.id)).nodup_iff).mpr h1
  exact ((joinIds_buildGroups st).nodup_iff).mpr h2

theorem mem_joinIds {gs : List Group} {g : Group} (hg : g ∈ gs) :
    ∀ x ∈ g.ids, x ∈ joinIds gs := by
  induction gs with
  | nil => cases hg
  | cons g0 rest ih =>
    intro x hx
    simp only [joinIds, List.mem_append]
    rcases List.mem_cons.1 hg with h | h
    · subst h
      exact Or.inl hx
    · exact Or.inr (ih h x hx)

theorem insertIntoGroups_nonempty (mid : Nat) (c : String) (ts : List String) :
    ∀ gs : List Group, (∀ g ∈ gs, g.members ≠ []) →
      ∀ g ∈ insertIntoGroups mid c ts gs, g.members ≠ [] := by
  intro gs
  induction gs with
  | nil =>
    intro _ g hg
    simp only [insertIntoGroups, List.mem_singleton] at hg
    subst hg
    simp
  | cons g0 rest ih =>
    intro h g hg
    unfold insertIntoGroups at hg
    split_ifs at hg with hm
    · rcases List.mem_cons.1 hg with h1 | h1
      · subst h1
        simp
      · exact h g (List.mem_cons_of_mem _ h1)
    · rcases List.mem_cons.1 hg with h1 | h1
      · subst h1
        exact h g (List.mem_cons_self _ _)
      · exact ih (fun g1 hg1 => h g1 (List.mem_cons_of_mem _ hg1)) g h1

theorem buildGroups_nonempty (st : Store) :
    ∀ g ∈ buildGroups st, g.members ≠ [] := by
  unfold buildGroups
  have key : ∀ (ms : List MemRow) (gs : List Group),
      (∀ g ∈ gs, g.members ≠ []) →
      ∀ g ∈ ms.foldl
        (fun acc m => insertIntoGroups m.id m.content m.topics acc) gs,
        g.members ≠ [] := by
    intro ms
    induction ms with
    | nil => intro gs h; exact h
    | cons m rest ih =>
      intro gs h
      exact ih _ (insertIntoGroups_nonempty _ _ _ _ h)
  exact key _ [] (by intro g hg; cases hg)

theorem buildGroups_unconsolidated (st : Store)
    (hnd : (st.memories.map (fun m => m.id)).Nodup) :
    ∀ g ∈ buildGroups st, ∀ x ∈ g.ids, ∀ m ∈ st.memories, m.id = x →
      m.is_consolidated = false := by
  intro g hg x hx m hm hmx
  have hj : x ∈ joinIds (buildGroups st) := mem_joinIds hg x hx
  have h1 : x ∈ ((sortDescBy memTsGt
      (st.memories.filter (fun m => !m.is_consolidated))).map (fun m => m.id)) :=
    ((joinIds_buildGroups st).mem_iff).mp hj
  have h2 : x ∈ ((st.memories.filter (fun m => !m.is_consolidated)).map
      (fun m => m.id)) :=
    (((sortDescBy_perm memTsGt _).map (fun m => m.id)).mem_iff).mp h1
  obtain ⟨m0, hm0, hm0x⟩ := List.mem_map.1 h2
  have hm0mem : m0 ∈ st.memories := (List.mem_filter.1 hm0).1
  have hm0f : (!m0.is_consolidated) = true := (List.mem_filter.1 hm0).2
  have heq : m = m0 :=
    List.inj_on_of_nodup_map hnd hm hm0mem (hmx.trans hm0x.symm)
  rw [heq]
  simpa using hm0f

theorem processGroup_mark_mono
    (gen : List String → List String → Option String) (now : ℚ)
    (acc : Store) (g : Group) (S : List Nat)
    (h : ∀ m ∈ acc.memories, m.id ∈ S → m.is_consolidated = true) :
    ∀ m ∈ (processGroup gen now acc g).memories, m.id ∈ S →
      m.is_consolidated = true := by
  unfold processGroup
  split
  · split
    · split
      · intro m hm
        obtain ⟨m0, hm0, rfl⟩ := List.mem_map.1 hm
        by_cases hc : m0.id ∈ g.ids
        · simp [hc]
        · simpa [hc] using h m0 hm0
      · exact h
    · exact h
  · exact h

theorem processGroup_unmark_frame
    (gen : List String → List String → Option String) (now : ℚ)
    (acc : Store) (g : Group) (S : List Nat)
    (hdisj : ∀ x ∈ g.ids, x ∉ S)
    (h : ∀ m ∈ acc.memories, m.id ∈ S → m.is_consolidated = false) :
    ∀ m ∈ (processGroup gen now acc g).memories, m.id ∈ S →
      m.is_consolidated = false := by
  unfold processGroup
  split
  · split
    · split
      · intro m hm
        obtain ⟨m0, hm0, rfl⟩ := List.mem_map.1 hm
        by_cases hc : m0.id ∈ g.ids
        · intro hid
          have hid0 : m0.id ∈ S := by simpa [hc] using hid
          exact absurd hid0 (hdisj m0.id hc)
        · simpa [hc] using h m0 hm0
      · exact h
    · exact h
  · exact h

theorem processGroup_count_frame
    (gen : List String → List String → Option String) (now : ℚ)
    (acc : Store) (g : Group) (ids0 : List Nat) (hne : g.ids ≠ ids0) :
    countSourceRows (processGroup gen now acc g).consolidated ids0
      = countSourceRows acc.consolidated ids0 := by
  unfold processGroup
  split
  · split
    · split
      · simp [countSourceRows, List.filter_append, hne]
      · rfl
    · rfl
  · rfl

theorem processGroup_success
    (gen : List String → List String → Option String) (now : ℚ)
    (acc : Store) (G : Group) (s : String)
    (h3 : 3 ≤ G.members.length) (hgen : gen G.contents G.topics = some s)
    (hs : s ≠ ("")) :
    (∀ m ∈ (processGroup gen now acc G).memories, m.id ∈ G.ids →
        m.is_consolidated = true) ∧
    countSourceRows (processGroup gen now acc G).consolidated G.ids
      = countSourceRows acc.consolidated G.ids + 1 := by
  unfold processGroup
  rw [if_pos h3]
  simp only [hgen]
  rw [if_pos hs]
  constructor
  · intro m hm
    obtain ⟨m0, hm0, rfl⟩ := List.mem_map.1 hm
    by_cases hc : m0.id ∈ G.ids
    · simp [hc]
    · intro hid
      exact absurd (by simpa [hc] using hid) hc
  · simp [countSourceRows, List.filter_append]

theorem processGroup_skip
    (gen : List String → List String → Option String) (now : ℚ)
    (acc : Store) (G : Group) (hgen : gen G.contents G.topics = none) :
    processGroup gen now acc G = acc := by
  unfold processGroup
  split
  · rw [hgen]
  · rfl

theorem fold_mark_mono
    (gen : List String → List String → Option String) (now : ℚ)
    (S : List Nat) :
    ∀ (gs : List Group) (acc : Store),
      (∀ m ∈ acc.memories, m.id ∈ S → m.is_consolidated = true) →
      ∀ m ∈ (gs.foldl (processGroup gen now) acc).memories, m.id ∈ S →
        m.is_consolidated = true := by
  intro gs
  induction gs with
  | nil => intro acc h; exact h
  | cons g rest ih =>
    intro acc h
    simp only [List.foldl_cons]
    exact ih _ (processGroup_mark_mono gen now acc g S h)

theorem fold_unmark_frame
    (gen : List String → List String → Option String) (now : ℚ)
    (S : List Nat) :
    ∀ (gs : List Group) (acc : Store),
      (∀ g ∈ gs, ∀ x ∈ g.ids, x ∉ S) →
      (∀ m ∈ acc.memories, m.id ∈ S → m.is_consolidated = false) →
      ∀ m ∈ (gs.foldl (processGroup gen now) acc).memories, m.id ∈ S →
        m.is_consolidated = false := by
  intro gs
  induction gs with
  | nil => intro acc _ h; exact h
  | cons g rest ih =>
    intro acc hdisj h
    simp only [List.foldl_cons]
    exact ih _ (fun g1 hg1 => hdisj g1 (List.mem_cons_of_mem _ hg1))
      (processGroup_unmark_frame gen now acc g S
        (hdisj g (List.mem_cons_self _ _)) h)

theorem fold_count_frame
    (gen : List String → List String → Option String) (now : ℚ)
    (ids0 : List Nat) :
    ∀ (gs : List Group) (acc : Store), (∀ g ∈ gs, g.ids ≠ ids0) →
      countSourceRows ((gs.foldl (processGroup gen now) acc)).consolidated ids0
        = countSourceRows acc.consolidated ids0 := by
  intro gs
  induction gs with
  | nil => intro acc _; rfl
  | cons g rest ih =>
    intro acc hne
    simp only [List.foldl_cons]
    rw [ih _ (fun g1 hg1 => hne g1 (List.mem_cons_of_mem _ hg1)),
      processGroup_count_frame gen now acc g ids0 (hne g (List.mem_cons_self _ _))]

theorem group_ids_ne {g : Group} {J : List Nat} {ids0 : List Nat}
    (hgne : g.members ≠ []) (hsub : ∀ x ∈ g.ids, x ∈ J)
    (hdisj : ∀ x ∈ ids0, x ∉ J) : g.ids ≠ ids0 := by
  intro he
  obtain ⟨x, hx⟩ := List.exists_mem_of_ne_nil g.ids
    (by simpa [Group.ids] using hgne)
  exact hdisj x (he ▸ hx) (hsub x hx)

theorem fold_success
    (gen : List String → List String → Option String) (now : ℚ)
    (G : Group) (s : String) (h3 : 3 ≤ G.members.length)
    (hgen : gen G.contents G.topics = some s) (hs : s ≠ ("")) :
    ∀ (gs : List Group) (acc : Store), G ∈ gs → (joinIds gs).Nodup →
      (∀ g ∈ gs, g.members ≠ []) →
      ((∀ m ∈ (gs.foldl (processGroup gen now) acc).memories,
          m.id ∈ G.ids → m.is_consolidated = true) ∧
        countSourceRows ((gs.foldl (processGroup gen now) acc)).consolidated G.ids
          = countSourceRows acc.consolidated G.ids + 1) := by
  intro gs
  induction gs with
  | nil => intro acc h; cases h
  | cons g0 rest ih =>
    intro acc hmem hnd hne
    simp only [joinIds] at hnd
    obtain ⟨hnd0, hndrest, hdisj⟩ := List.nodup_append.1 hnd
    simp only [List.foldl_cons]
    rcases List.mem_cons.1 hmem with hG | hG
    · subst hG
      have hstep := processGroup_success gen now acc G s h3 hgen hs
      have hX : ∀ g ∈ rest, g.ids ≠ G.ids := fun g hg =>
        group_ids_ne (hne g (List.mem_cons_of_mem _ hg)) (mem_joinIds hg)
          (fun x hx => hdisj hx)
      exact ⟨fold_mark_mono gen now G.ids rest _ hstep.1,
        by rw [fold_count_frame gen now G.ids rest _ hX, hstep.2]⟩
    · have hsubG : ∀ x ∈ G.ids, x ∈ joinIds rest := mem_joinIds hG
      have hga : g0.ids ≠ G.ids := by
        intro he
        obtain ⟨x, hx⟩ := List.exists_mem_of_ne_nil G.ids
          (by simpa [Group.ids] using hne G hmem)
        exact hdisj (he ▸ hx) (hsubG x hx)
      have hrec := ih (processGroup gen now acc g0) hG hndrest
        (fun g hg => hne g (List.mem_cons_of_mem _ hg))
      exact ⟨hrec.1,
        by rw [hrec.2, processGroup_count_frame gen now acc g0 G.ids hga]⟩

theorem fold_fail
    (gen : List String → List String → Option String) (now : ℚ)
    (G : Group) (hgen : gen G.contents G.topics = none) :
    ∀ (gs : List Group) (acc : Store), G ∈ gs → (joinIds gs).Nodup →
      (∀ g ∈ gs, g.members ≠ []) →
      (∀ m ∈ acc.memories, m.id ∈ G.ids → m.is_consolidated = false) →
      ((∀ m ∈ (gs.foldl (processGroup gen now) acc).memories,
          m.id ∈ G.ids → m.is_consolidated = false) ∧
        countSourceRows ((gs.foldl (processGroup gen now) acc)).consolidated G.ids
          = countSourceRows acc.consolidated G.ids) := by
  intro gs
  induction gs with
  | nil => intro acc h; cases h
  | cons g0 rest ih =>
    intro acc hmem hnd hne hinit
    simp only [joinIds] at hnd
    obtain ⟨hnd0, hndrest, hdisj⟩ := List.nodup_append.1 hnd
    simp only [List.foldl_cons]
    rcases List.mem_cons.1 hmem with hG | hG
    · subst hG
      rw [processGroup_skip gen now acc G hgen]
      have hXne : ∀ g ∈ rest, g.ids ≠ G.ids := fun g hg =>
        group_ids_ne (hne g (List.mem_cons_of_mem _ hg)) (mem_joinIds hg)
          (fun x hx => hdisj hx)
      have hXdisj : ∀ g ∈ rest, ∀ x ∈ g.ids, x ∉ G.ids := by
        intro g hg x hx hxG
        exact hdisj hxG (mem_joinIds hg x hx)
      exact ⟨fold_unmark_frame gen now G.ids rest acc hXdisj hinit,
        fold_count_frame gen now G.ids rest acc hXne⟩
    · have hsubG : ∀ x ∈ G.ids, x ∈ joinIds rest := mem_joinIds hG
      have hga : g0.ids ≠ G.ids := by
        intro he
        obtain ⟨x, hx⟩ := List.exists_mem_of_ne_nil G.ids
          (by simpa [Group.ids] using hne G hmem)
        exact hdisj (he ▸ hx) (hsubG x hx)
      have hg0disj : ∀ x ∈ g0.ids, x ∉ G.ids := by
        intro x hx hxG
        exact hdisj hx (hsubG x hxG)
      have hinit0 := processGroup_unmark_frame gen now acc g0 G.ids hg0disj hinit
      have hrec := ih (processGroup gen now acc g0) hG hndrest
        (fun g hg => hne g (List.mem_cons_of_mem _ hg)) hinit0
      exact ⟨hrec.1,
        by rw [hrec.2, processGroup_count_frame gen now acc g0 G.ids hga]⟩

theorem analyzeAndStore_no_trigger (cfg : Cfg) (st : Store) (d : MemoryData)
    (h : countUnconsolidated (analyzeAndStore cfg st d).2.1 < 10) :
    (analyzeAndStore cfg st d).2.2 = false := by
  revert h
  simp only [analyzeAndStore]
  split_ifs with hs
  · intro h
    dsimp only at h ⊢
    simp only [decide_eq_false_iff_not]
    omega
  · intro _
    rfl

theorem storeInsight_no_trigger (cfg : Cfg) (st : Store) (content : String)
    (source context app_name : Option String) (analyzeNow : Bool)
    (topics : List String) (now : ℚ)
    (h : countUnconsolidated (storeInsight cfg st content source context
      app_name analyzeNow topics now).2.1 < 10) :
    (storeInsight cfg st content source context app_name analyzeNow
      topics now).2.2 = false := by
  revert h
  simp only [storeInsight]
  split_ifs with h1 h2 h3 h4
  · intro _; rfl
  · intro _; rfl
  · intro _; rfl
  · exact analyzeAndStore_no_trigger cfg _ _
  · intro _; rfl

/-- C7: while the count of unconsolidated insights (after the insert) is
below 10, no insert enqueues a consolidation job; and whenever the greedy
first-match grouping of a store with distinct row ids and at least 10
unconsolidated insights yields a group of at least 3 members whose summary
generation succeeds, the consolidation run marks every member of that group
`is_consolidated = 1` and adds exactly one new `consolidated_memories` row
whose `source_ids` is that group's member-id list. -/
theorem claim_C7 :
    (∀ (cfg : Cfg) (st : Store) (content : String)
        (source context app_name : Option String) (analyzeNow : Bool)
        (topics : List String) (now : ℚ),
      countUnconsolidated (storeInsight cfg st content source context app_name
        analyzeNow topics now).2.1 < 10 →
      (storeInsight cfg st content source context app_name analyzeNow
        topics now).2.2 = false) ∧
    (∀ (gen : List String → List String → Option String) (st : Store)
        (now : ℚ) (G : Group) (s : String),
      (st.memories.map (fun m => m.id)).Nodup →
      10 ≤ countUnconsolidated st →
      G ∈ buildGroups st →
      3 ≤ G.members.length →
      gen G.contents G.topics = some s →
      s ≠ ("") →
      ((∀ m ∈ (consolidateMemories gen st now).memories,
          m.id ∈ G.ids → m.is_consolidated = true) ∧
        countSourceRows (consolidateMemories gen st now).consolidated G.ids
          = countSourceRows st.consolidated G.ids + 1)) := by
  constructor
  · intro cfg st content source context app_name analyzeNow topics now h
    exact storeInsight_no_trigger cfg st content source context app_name
      analyzeNow topics now h
  · intro gen st now G s hnd hcount hG h3 hgen hs
    exact fold_success gen now G s h3 hgen hs (buildGroups st) st hG
      (joinIds_buildGroups_nodup st hnd) (buildGroups_nonempty st)

/-- Witness for C7: a queued insert on an empty store triggers nothing, and
on the concrete ten-insight store sharing one topic the successful
consolidation run marks the whole group and adds exactly one summary row. -/
theorem claim_C7_witness :
    (storeInsight defaultCfg {} ("Remember the milk today") none none none
        false [] 0).2.2 = false ∧
    (∀ m ∈ (consolidateMemories c7Gen c7Store 99).memories,
        m.id ∈ c7Group.ids → m.is_consolidated = true) ∧
    countSourceRows (consolidateMemories c7Gen c7Store 99).consolidated
        c7Group.ids
      = countSourceRows c7Store.consolidated c7Group.ids + 1 :=
  ⟨claim_C7.1 defaultCfg {} ("Remember the milk today") none none none
      false [] 0 (by decide),
   (claim_C7.2 c7Gen c7Store 99 c7Group ("combined summary") (by decide)
      (by decide) (by decide) (by decide) rfl (by decide)).1,
   (claim_C7.2 c7Gen c7Store 99 c7Group ("combined summary") (by decide)
      (by decide) (by decide) (by decide) rfl (by decide)).2⟩

/-- C9: when the LLM summary call fails for a group (modelled by the oracle
returning `none`, the caught-exception path of `_generate_summary`), the
consolidation run creates no `consolidated_memories` row for that group and
every member insight keeps `is_consolidated = 0` — the group stays eligible
for the next run.  The run itself is a total function: the caught failure
never propagates. -/
theorem claim_C9 (gen : List String → List String → Option String)
    (st : Store) (now : ℚ) (G : Group)
    (hnd : (st.memories.map (fun m => m.id)).Nodup)
    (hG : G ∈ buildGroups st)
    (hgen : gen G.contents G.topics = none) :
    (∀ m ∈ (consolidateMemories gen st now).memories,
        m.id ∈ G.ids → m.is_consolidated = false) ∧
    countSourceRows (consolidateMemories gen st now).consolidated G.ids
      = countSourceRows st.consolidated G.ids := by
  have hinit : ∀ m ∈ st.memories, m.id ∈ G.ids → m.is_consolidated = false :=
    fun m hm hid => buildGroups_unconsolidated st hnd G hG m.id hid m hm rfl
  exact fold_fail gen now G hgen (buildGroups st) st hG
    (joinIds_buildGroups_nodup st hnd) (buildGroups_nonempty st) hinit

/-- Witness for C9 on the concrete ten-insight store with a failing oracle. -/
theorem claim_C9_witness :
    (∀ m ∈ (consolidateMemories c9Gen c7Store 99).memories,
        m.id ∈ c7Group.ids → m.is_consolidated = false) ∧
    countSourceRows (consolidateMemories c9Gen c7Store 99).consolidated
        c7Group.ids
      = countSourceRows c7Store.consolidated c7Group.ids :=
  ⟨(claim_C9 c9Gen c7Store 99 c7Group (by decide) (by decide) rfl).1,
   (claim_C9 c9Gen c7Store 99 c7Group (by decide) (by decide) rfl).2⟩

end Verification

end ScreenMate
